import Mathlib

/-!
Shallow embedding of the buy-vs-rent NPV simulator (src/app.py).

All monetary quantities are modelled over ℚ (exact arithmetic standing in for
Python floats).  Python's ZeroDivisionError is modelled by Option: the EMI
formula on line 65 is the single place in the engine where a division by zero
can occur, so `emi` returns none exactly when its denominator vanishes, and
`compute_npv` propagates that failure.
-/

namespace App

/-- Sidebar inputs of the simulator (src/app.py lines 20-52) collected into one
record.  Field order: price, down_pct, loan_rate, tenure, rent0, disc,
lifetime, exit_year, buy_commission, sell_commission, monthly_costs.
`tenure` and `exit_year` are the integer year inputs; `lifetime` is the
"Hold till lifetime (no sale)" checkbox (which the UI pairs with
exit_year = 60). -/
structure Params where
  price : ℚ
  down_pct : ℚ
  loan_rate : ℚ
  tenure : ℤ
  rent0 : ℚ
  disc : ℚ
  lifetime : Bool
  exit_year : ℤ
  buy_commission : ℚ
  sell_commission : ℚ
  monthly_costs : ℚ
deriving DecidableEq

/-- line 54: tax_rate = 0.30 -/
def tax_rate : ℚ := 30 / 100

/-- line 55: interest_cap = 200000 -/
def interest_cap : ℚ := 200000

/-- line 56: principal_cap = 150000 -/
def principal_cap : ℚ := 150000

/-- line 59: downpayment = price * down_pct/100 -/
def downpayment (p : Params) : ℚ := p.price * p.down_pct / 100

/-- line 60: loan_amt = price - downpayment -/
def loan_amt (p : Params) : ℚ := p.price - downpayment p

/-- line 62: r = loan_rate/100/12 -/
def r (p : Params) : ℚ := p.loan_rate / 100 / 12

/-- line 63: n = tenure*12 -/
def n (p : Params) : ℤ := p.tenure * 12

/-- line 65: emi = loan_amt*r*(1+r)**n/((1+r)**n-1).  Python raises
ZeroDivisionError when the denominator is zero (in particular whenever the
rate is zero), modelled by none. -/
def emi (L rr : ℚ) (nn : ℤ) : Option ℚ :=
  if (1 + rr) ^ nn - 1 = 0 then none
  else some (L * rr * (1 + rr) ^ nn / ((1 + rr) ^ nn - 1))

/-- The EMI of a parameter set. -/
def emiP (p : Params) : Option ℚ := emi (loan_amt p) (r p) (n p)

/-- line 90: months = int(exit_year*12) -/
def months (p : Params) : ℕ := (p.exit_year * 12).toNat

/-- line 91: monthly_disc = disc/100/12 -/
def monthly_disc (p : Params) : ℚ := p.disc / 100 / 12

/-- lines 107-118: the monthly tax saving computed inside the buy loop.
annual_interest = interest*12, annual_principal = principal*12,
interest_ded = min(annual_interest, interest_cap),
principal_ded = min(annual_principal, principal_cap),
tax_saving_monthly = (interest_ded + principal_ded) * tax_rate / 12,
and 0 when tax_on is false. -/
def tax_saving_monthly (tax_on : Bool) (interest principal : ℚ) : ℚ :=
  if tax_on then
    (min (interest * 12) interest_cap + min (principal * 12) principal_cap) * tax_rate / 12
  else 0

/-- lines 99-105: the loan balance after m iterations of the buy loop,
starting from L: interest = balance*r, principal = emi - interest,
balance -= principal. -/
def balAfter (L rr e : ℚ) : ℕ → ℚ
  | 0 => L
  | m + 1 => balAfter L rr e m - (e - balAfter L rr e m * rr)

/-- line 103: the interest charged in month m (1-indexed) of the buy loop. -/
def interestAt (p : Params) (e : ℚ) (m : ℕ) : ℚ :=
  balAfter (loan_amt p) (r p) e (m - 1) * r p

/-- line 104: the principal repaid in month m (1-indexed) of the buy loop. -/
def principalAt (p : Params) (e : ℚ) (m : ℕ) : ℚ := e - interestAt p e m

/-- line 96: initial = downpayment + price*buy_commission/100 + 0.03*price + 8000 -/
def initial (p : Params) : ℚ :=
  downpayment p + p.price * p.buy_commission / 100 + 3 / 100 * p.price + 8000

/-- line 130: invest0, textually identical to the buy path's initial outlay. -/
def invest0 (p : Params) : ℚ :=
  downpayment p + p.price * p.buy_commission / 100 + 3 / 100 * p.price + 8000

/-- line 120: the recurring buy-path flow of month m,
-(emi + monthly_costs - tax_saving_monthly). -/
def buy_flow_month (p : Params) (tax_on : Bool) (e : ℚ) (m : ℕ) : ℚ :=
  -(e + p.monthly_costs - tax_saving_monthly tax_on (interestAt p e m) (principalAt p e m))

/-- Python's cf[-1] += a on a list, as a pure function. -/
def addLast : List ℚ → ℚ → List ℚ
  | [], _ => []
  | [x], a => [x + a]
  | x :: y :: t, a => x :: addLast (y :: t) a

/-- line 123: sale_price = price*(1+hg/100)**exit_year -/
def sale_price (p : Params) (hg : ℚ) : ℚ := p.price * (1 + hg / 100) ^ p.exit_year

/-- line 124: sale_net = sale_price*(1-sell_commission/100) - balance, where
balance is the loan balance left after the months of the holding horizon. -/
def sale_net (p : Params) (hg : ℚ) (e : ℚ) : ℚ :=
  sale_price p hg * (1 - p.sell_commission / 100) -
    balAfter (loan_amt p) (r p) e (months p)

/-- lines 94-125: the buy-path cash-flow series: -(initial), then one
recurring flow per month 1..months, and, unless lifetime mode is on, the
sale proceeds added onto the last entry. -/
def cf_buy (p : Params) (hg : ℚ) (tax_on : Bool) (e : ℚ) : List ℚ :=
  let base := (-(initial p)) ::
    (List.range (months p)).map (fun k => buy_flow_month p tax_on e (k + 1))
  if p.lifetime then base else addLast base (sale_net p hg e)

/-- lines 128-143: the rent-path cash-flow series: -(invest0), then
-rent0*(1+rg/100/12)^m per month m, with the compounded investment balance
invest0*(1+monthly_disc)^months added onto the last entry. -/
def cf_rent (p : Params) (rg : ℚ) : List ℚ :=
  addLast
    ((-(invest0 p)) ::
      (List.range (months p)).map (fun k => -(p.rent0 * (1 + rg / 100 / 12) ^ (k + 1))))
    (invest0 p * (1 + monthly_disc p) ^ (months p))

/-- The plain discounted sum with a running index: the value
sum(cf/((1+rate)**i)) takes when none of its divisions fails.  Used only to
name the values npvFrom returns on its non-error path. -/
def npvSumFrom (rate : ℚ) : ℕ → List ℚ → ℚ
  | _, [] => 0
  | i, c :: cs => c / (1 + rate) ^ i + npvSumFrom rate (i + 1) cs

/-- lines 145-146: npv(rate, cfs) = sum(cf/((1+rate)**i) for i, cf in
enumerate(cfs)).  Python evaluates the terms one by one and raises
ZeroDivisionError on cf/((1+rate)**i) when (1+rate)**i == 0, i.e. when
rate = -1 and i >= 1; none models that error. -/
def npvFrom (rate : ℚ) : ℕ → List ℚ → Option ℚ
  | _, [] => some 0
  | i, c :: cs =>
      if (1 + rate) ^ i = 0 then none
      else (npvFrom rate (i + 1) cs).map (fun s => c / (1 + rate) ^ i + s)

/-- NPV of a cash-flow series at a periodic rate, starting at index 0;
none models the ZeroDivisionError raised when the rate is exactly -1 and
the series has at least two entries. -/
def npv (rate : ℚ) (cfs : List ℚ) : Option ℚ := npvFrom rate 0 cfs

/-- lines 88-148: compute_npv(hg, rg, tax_on) returns the pair
(npv of the buy series, npv of the rent series); none models an uncaught
ZeroDivisionError, raised either by the EMI formula (line 65) or by a
discount division inside npv (line 146). -/
def compute_npv (p : Params) (hg rg : ℚ) (tax_on : Bool) : Option (ℚ × ℚ) :=
  (emiP p).bind (fun e =>
    (npv (monthly_disc p) (cf_buy p hg tax_on e)).bind (fun b =>
      (npv (monthly_disc p) (cf_rent p rg)).map (fun rn => (b, rn))))

/-- lines 206-210 and 259-263: scan adjacent delta pairs in list order and
return the grid value at the left end of the first pair whose product is
strictly negative; none when no such pair exists. -/
def break_even_search : List ℚ → List ℚ → Option ℚ
  | x :: xs, d1 :: d2 :: ds =>
      if d1 * d2 < 0 then some x else break_even_search xs (d2 :: ds)
  | _, _ => none

/-- np.linspace(a, b, num): num evenly spaced points from a to b. -/
def linspace (a b : ℚ) (num : ℕ) : List ℚ :=
  (List.range num).map (fun k => a + (b - a) * k / ((num : ℚ) - 1))

/-- line 188: growths = np.linspace(-5, 8, 80) -/
def growths : List ℚ := linspace (-5) 8 80

/-- line 236: years = np.arange(1, 31) -/
def yearsGrid : List ℚ := (List.range 30).map (fun k => (k : ℚ) + 1)

/-- The sidebar defaults of src/app.py lines 20-52: price 1500000,
down 20%, loan rate 3%, tenure 30y, rent 4000, discount 5%, no lifetime,
sell after 10 years, both commissions 1%, monthly costs 450. -/
def default_params : Params := ⟨1500000, 20, 3, 30, 4000, 5, false, 10, 1, 1, 450⟩

/-- A parameter set whose down payment (200%) exceeds the price, so the
loan amount is negative: price 100, down 200%, rate 1200% (monthly rate 1),
tenure 1y, horizon 1y, no costs or commissions, zero discount. -/
def invalid_params : Params := ⟨100, 200, 1200, 1, 0, 0, false, 1, 0, 0, 0⟩

/-- A small well-behaved parameter set: price 100, nothing down, monthly
rate 1, tenure 1y, horizon 1y, zero discount, no costs or commissions. -/
def small_params : Params := ⟨100, 0, 1200, 1, 0, 0, false, 1, 0, 0, 0⟩

/-- Like small_params but with a 200% sell commission and a 1200% discount
rate (monthly discount 1), making sale proceeds decrease in house growth. -/
def neg_sale_params : Params := ⟨100, 0, 1200, 1, 0, 1200, false, 1, 0, 200, 0⟩

/-- Like small_params but held for 2 years, so the 24-month horizon overruns
the 12-month loan tenure. -/
def overrun_params : Params := ⟨100, 0, 1200, 1, 0, 0, false, 2, 0, 0, 0⟩

/-! Amortization lemmas. -/

theorem balAfter_succ (L rr e : ℚ) (m : ℕ) :
    balAfter L rr e (m + 1) = balAfter L rr e m * (1 + rr) - e := by
  simp only [balAfter]; ring

theorem balAfter_closed (L rr e : ℚ) (hr : rr ≠ 0) (m : ℕ) :
    balAfter L rr e m = L * (1 + rr) ^ m - e * ((1 + rr) ^ m - 1) / rr := by
  induction m with
  | zero => simp [balAfter]
  | succ m ih =>
      rw [balAfter_succ, ih]
      field_simp
      ring

theorem one_lt_growth_zpow (rr : ℚ) (nn : ℤ) (hr : 0 < rr) (hn : 1 ≤ nn) :
    1 < (1 + rr) ^ nn := by
  have h0 : (0:ℤ) ≤ nn := by omega
  have h1 : nn = ((nn.toNat : ℕ) : ℤ) := (Int.toNat_of_nonneg h0).symm
  rw [h1, zpow_natCast]
  exact one_lt_pow₀ (by linarith) (by omega)

theorem emi_formula (L rr : ℚ) (nn : ℤ) (h1 : 1 < (1 + rr) ^ nn) :
    emi L rr nn = some (L * rr * (1 + rr) ^ nn / ((1 + rr) ^ nn - 1)) := by
  unfold emi
  rw [if_neg (sub_ne_zero.mpr (ne_of_gt h1))]

theorem balAfter_emi_zero (L rr : ℚ) (m : ℕ) (hr : rr ≠ 0)
    (hq : (1 + rr) ^ m - 1 ≠ 0) :
    balAfter L rr (L * rr * (1 + rr) ^ m / ((1 + rr) ^ m - 1)) m = 0 := by
  rw [balAfter_closed L rr _ hr]
  field_simp
  ring

theorem balAfter_neg_step (L rr e : ℚ) (hr : 0 < rr) (he : 0 < e) (m : ℕ)
    (h : balAfter L rr e m ≤ 0) : balAfter L rr e (m + 1) < 0 := by
  rw [balAfter_succ]
  nlinarith

theorem balAfter_neg_of_gt (L rr e : ℚ) (hr : 0 < rr) (he : 0 < e) (N : ℕ)
    (hN : balAfter L rr e N = 0) : ∀ m, N < m → balAfter L rr e m < 0 := by
  intro m
  induction m with
  | zero => omega
  | succ k ih =>
      intro hk
      rcases Nat.lt_or_ge N k with h | h
      · exact balAfter_neg_step L rr e hr he k (le_of_lt (ih h))
      · have hkN : k = N := by omega
        subst hkN
        exact balAfter_neg_step L rr e hr he k (le_of_eq hN)

/-- C1 counterexample: at a zero monthly rate the EMI computation of line 65
does not return loanAmount/totalMonths; its denominator (1+0)^n - 1 is zero
and Python raises ZeroDivisionError (modelled: none), at the spec's own
concrete loan 1200000 over 360 months. -/
theorem emi_zero_rate_counterexample : emi 1200000 0 360 = none := by
  simp [emi]

/-- C1 amended: for every loanAmount, every monthlyRate > 0 and every
totalMonths >= 1, the EMI computation is well defined and returns the
annuity-formula value; at monthlyRate = 0 the code divides by zero instead
of returning loanAmount/totalMonths. -/
theorem emi_pos_rate_defined (L rr : ℚ) (nn : ℤ) (hr : 0 < rr) (hn : 1 ≤ nn) :
    emi L rr nn = some (L * rr * (1 + rr) ^ nn / ((1 + rr) ^ nn - 1)) :=
  emi_formula L rr nn (one_lt_growth_zpow rr nn hr hn)

/-- Witness for emi_pos_rate_defined at L = 1, rate = 1, one month. -/
theorem emi_pos_rate_defined_witness :
    emi 1 1 1 = some (1 * 1 * (1 + 1 : ℚ) ^ (1 : ℤ) / ((1 + 1 : ℚ) ^ (1 : ℤ) - 1)) :=
  emi_pos_rate_defined 1 1 1 (by norm_num) (le_refl 1)

/-- C4 counterexample: the claim quantifies over monthlyRate >= 0, but at
monthlyRate = 0 there is no computed monthly payment at all: the EMI formula
divides by zero, so no payment amortizes the loan to within any tolerance. -/
theorem amortize_zero_rate_counterexample :
    ¬ ∃ e, emi 1 0 12 = some e ∧ |balAfter 1 0 e 12| ≤ 1 / 1000000 := by
  rintro ⟨e, he, -⟩
  simp [emi] at he

/-- C4 amended: for every loanAmount, every monthlyRate > 0 and every
totalMonths >= 1, paying the computed EMI and repeatedly applying the
interest/principal split of lines 103-105 drives the ending balance to
exactly 0 in exact arithmetic (hence within the 1e-6 relative tolerance);
monthlyRate = 0 must be excluded because there the EMI is undefined. -/
theorem amortizes_to_zero (L rr : ℚ) (m : ℕ) (hr : 0 < rr) (hm : 1 ≤ m) :
    ∃ e, emi L rr m = some e ∧ balAfter L rr e m = 0 := by
  have h1 : (1:ℚ) < (1 + rr) ^ (m : ℤ) := one_lt_growth_zpow rr m hr (by omega)
  have hnat : ((1:ℚ) + rr) ^ (m : ℤ) = (1 + rr) ^ m := zpow_natCast _ m
  rw [hnat] at h1
  refine ⟨L * rr * (1 + rr) ^ m / ((1 + rr) ^ m - 1), ?_, ?_⟩
  · rw [emi_formula L rr m (by rw [hnat]; exact h1), hnat]
  · exact balAfter_emi_zero L rr m (ne_of_gt hr) (sub_ne_zero.mpr (ne_of_gt h1))

/-- Witness for amortizes_to_zero: a loan of 100 at monthly rate 1 over
12 months. -/
theorem amortizes_to_zero_witness :
    ∃ e, emi 100 1 (12 : ℕ) = some e ∧ balAfter 100 1 e 12 = 0 :=
  amortizes_to_zero 100 1 12 (by norm_num) (by norm_num)

/-- C10 counterexample: a 13-month horizon on a 12-month loan (100 at
monthly rate 1) is strictly longer than the tenure, yet no month of that
horizon charges negative interest: month m's interest is the month-(m-1)
balance times the rate, and every balance through month 12 is nonnegative
(the last being exactly 0), so the claim's "the monthly interest becomes
negative" fails at holdingMonths = tenure months + 1. -/
theorem loan_overrun_interest_counterexample :
    emi 100 1 (12 : ℕ) = some (81920 / 819) ∧
    ∀ m, m < 13 → 0 ≤ balAfter 100 1 (81920 / 819) m :=
  ⟨by with_unfolding_all rfl, by with_unfolding_all decide⟩

/-- C10 amended: for a positive loan at a positive monthly rate, any holding
horizon strictly longer than the loan tenure keeps charging the full EMI and
splitting every month with no stop at payoff (also in lifetime mode): the
ending balance is strictly negative, every month after the (tenure
months + 1)-st charges strictly negative interest (at a horizon of exactly
tenure months + 1 the last interest is 0, not negative), and when lifetime
mode is off the sale adjustment added onto the final buy cash flow exceeds
the gross commission-adjusted sale price, because the negative remaining
balance is subtracted from it. -/
theorem loan_overrun_negative_balance (p : Params) (hg : ℚ)
    (hL : 0 < loan_amt p) (hr : 0 < r p) (ht : 1 ≤ p.tenure)
    (hm : (n p).toNat < months p) :
    ∃ e, emiP p = some e ∧ 0 < e ∧
      balAfter (loan_amt p) (r p) e (months p) < 0 ∧
      (∀ m, (n p).toNat + 1 < m → m ≤ months p → interestAt p e m < 0) ∧
      (p.lifetime = false →
        sale_price p hg * (1 - p.sell_commission / 100) < sale_net p hg e ∧
        cf_buy p hg false e =
          addLast ((-(initial p)) ::
            (List.range (months p)).map (fun k => buy_flow_month p false e (k + 1)))
            (sale_net p hg e)) := by
  set N : ℕ := (n p).toNat with hN
  have hn12 : n p = (N : ℤ) := by
    have : (0:ℤ) ≤ n p := by unfold n; omega
    rw [hN]; omega
  have hN1 : 1 ≤ N := by
    have : (12:ℤ) ≤ n p := by unfold n; omega
    omega
  have h1 : (1:ℚ) < (1 + r p) ^ N := by
    have := one_lt_growth_zpow (r p) N hr (by omega)
    rwa [zpow_natCast] at this
  have hq : (1 + r p) ^ N - 1 ≠ 0 := sub_ne_zero.mpr (ne_of_gt h1)
  set e : ℚ := loan_amt p * r p * (1 + r p) ^ N / ((1 + r p) ^ N - 1) with hedef
  have he : 0 < e := by
    rw [hedef]
    exact div_pos (mul_pos (mul_pos hL hr) (lt_trans one_pos h1)) (by linarith)
  have hz : balAfter (loan_amt p) (r p) e N = 0 :=
    balAfter_emi_zero (loan_amt p) (r p) N (ne_of_gt hr) hq
  have hneg : ∀ m, N < m → balAfter (loan_amt p) (r p) e m < 0 :=
    balAfter_neg_of_gt (loan_amt p) (r p) e hr he N hz
  refine ⟨e, ?_, he, hneg (months p) (by omega), ?_, ?_⟩
  · unfold emiP
    rw [hn12]
    have := emi_formula (loan_amt p) (r p) ((N : ℕ) : ℤ)
      (by rw [zpow_natCast]; exact h1)
    rw [this, zpow_natCast]
  · intro m hm1 hm2
    unfold interestAt
    exact mul_neg_of_neg_of_pos (hneg (m - 1) (by omega)) hr
  · intro hl
    constructor
    · have := hneg (months p) (by omega)
      unfold sale_net
      linarith
    · simp [cf_buy, hl]

/-- Witness for loan_overrun_negative_balance: price 100 fully financed at
monthly rate 1 for a 12-month tenure, held for 24 months. -/
theorem loan_overrun_negative_balance_witness :
    ∃ e, emiP overrun_params = some e ∧ 0 < e ∧
      balAfter (loan_amt overrun_params) (r overrun_params) e (months overrun_params) < 0 ∧
      (∀ m, (n overrun_params).toNat + 1 < m → m ≤ months overrun_params →
        interestAt overrun_params e m < 0) ∧
      (overrun_params.lifetime = false →
        sale_price overrun_params 0 * (1 - overrun_params.sell_commission / 100) <
          sale_net overrun_params 0 e ∧
        cf_buy overrun_params 0 false e =
          addLast ((-(initial overrun_params)) ::
            (List.range (months overrun_params)).map
              (fun k => buy_flow_month overrun_params false e (k + 1)))
            (sale_net overrun_params 0 e)) :=
  loan_overrun_negative_balance overrun_params 0 (by with_unfolding_all decide)
    (by with_unfolding_all decide) (by with_unfolding_all decide)
    (by with_unfolding_all decide)

/-! List and NPV lemmas. -/

theorem addLast_length : ∀ (l : List ℚ) (a : ℚ), (addLast l a).length = l.length
  | [], _ => rfl
  | [_], _ => rfl
  | x :: y :: t, a => by
      simp only [addLast, List.length_cons]
      rw [addLast_length (y :: t) a]
      simp

theorem addLast_head : ∀ (l : List ℚ) (a : ℚ), 2 ≤ l.length →
    (addLast l a).head? = l.head?
  | _ :: _ :: _, _, _ => rfl

theorem addLast_forall2 (l1 l2 : List ℚ) (a : ℚ)
    (h : List.Forall₂ (· ≤ ·) l1 l2) :
    List.Forall₂ (· ≤ ·) (addLast l1 a) (addLast l2 a) := by
  induction h with
  | nil => exact List.Forall₂.nil
  | @cons x y t1 t2 hxy htl ih =>
      cases htl with
      | nil => exact List.Forall₂.cons (by linarith) List.Forall₂.nil
      | cons hzw htl2 => exact List.Forall₂.cons hxy ih

theorem npvSumFrom_le (rate : ℚ) (hrate : 0 < 1 + rate) :
    ∀ (i : ℕ) (l1 l2 : List ℚ), List.Forall₂ (· ≤ ·) l1 l2 →
      npvSumFrom rate i l1 ≤ npvSumFrom rate i l2 := by
  intro i l1 l2 h
  induction h generalizing i with
  | nil => exact le_refl _
  | @cons x y t1 t2 hxy htl ih =>
      simp only [npvSumFrom]
      exact add_le_add ((div_le_div_iff_of_pos_right (pow_pos hrate i)).mpr hxy) (ih (i + 1))

theorem npvSumFrom_addLast (rate : ℚ) :
    ∀ (i : ℕ) (l : List ℚ) (a : ℚ), l ≠ [] →
      npvSumFrom rate i (addLast l a) =
        npvSumFrom rate i l + a / (1 + rate) ^ (i + (l.length - 1))
  | _, [], _, h => absurd rfl h
  | i, [x], a, _ => by
      simp only [addLast, npvSumFrom, List.length_cons, List.length_nil]
      ring
  | i, x :: y :: t, a, _ => by
      simp only [addLast, npvSumFrom]
      rw [npvSumFrom_addLast rate (i + 1) (y :: t) a (by simp)]
      have hlen : (i + 1) + ((y :: t).length - 1) = i + ((x :: y :: t).length - 1) := by
        simp only [List.length_cons]
        omega
      rw [hlen]
      simp only [npvSumFrom]
      ring

/-- On the non-error path (discount factor nonzero) npvFrom returns exactly
the plain discounted sum. -/
theorem npvFrom_eq_some (rate : ℚ) (h : 1 + rate ≠ 0) :
    ∀ (i : ℕ) (l : List ℚ), npvFrom rate i l = some (npvSumFrom rate i l)
  | _, [] => rfl
  | i, c :: cs => by
      show (if (1 + rate) ^ i = 0 then none
        else (npvFrom rate (i + 1) cs).map (fun s => c / (1 + rate) ^ i + s)) = _
      rw [if_neg (pow_ne_zero i h), npvFrom_eq_some rate h (i + 1) cs]
      rfl

/-- On the non-error path (discount factor nonzero) npv returns exactly the
plain discounted sum. -/
theorem npv_eq_some (rate : ℚ) (h : 1 + rate ≠ 0) (l : List ℚ) :
    npv rate l = some (npvSumFrom rate 0 l) :=
  npvFrom_eq_some rate h 0 l

/-- Pointwise comparison of the buy series without and with tax, given that
each month's computed tax saving is nonnegative. -/
theorem cf_buy_forall2 (p : Params) (hg : ℚ) (e : ℚ)
    (hs : ∀ m, m < months p →
      0 ≤ tax_saving_monthly true (interestAt p e (m + 1)) (principalAt p e (m + 1))) :
    List.Forall₂ (· ≤ ·) (cf_buy p hg false e) (cf_buy p hg true e) := by
  have hbase : List.Forall₂ (· ≤ ·)
      ((-(initial p)) :: (List.range (months p)).map (fun k => buy_flow_month p false e (k + 1)))
      ((-(initial p)) :: (List.range (months p)).map (fun k => buy_flow_month p true e (k + 1))) := by
    refine List.Forall₂.cons (le_refl _) ?_
    rw [List.forall₂_map_left_iff, List.forall₂_map_right_iff, List.forall₂_same]
    intro k hk
    have hk' : k < months p := List.mem_range.mp hk
    have h0 := hs k hk'
    show buy_flow_month p false e (k + 1) ≤ buy_flow_month p true e (k + 1)
    unfold buy_flow_month
    have hfalse : tax_saving_monthly false (interestAt p e (k + 1)) (principalAt p e (k + 1)) = 0 := rfl
    rw [hfalse]
    linarith
  unfold cf_buy
  cases hl : p.lifetime with
  | true => simpa [hl] using hbase
  | false =>
      simp only [hl, if_false, Bool.false_eq_true]
      exact addLast_forall2 _ _ _ hbase

set_option maxRecDepth 8000 in
/-- C6 counterexample: with a down payment exceeding the price the loan
balance is negative, the monthly interest is negative, the capped "tax
saving" is negative, and enabling tax strictly lowers npvBuy. -/
theorem tax_monotone_counterexample :
    ((compute_npv invalid_params 0 0 true).getD (0, 0)).1 <
      ((compute_npv invalid_params 0 0 false).getD (0, 0)).1 := by
  with_unfolding_all decide

/-- C6 amended: with a positive monthly discount factor and a nonnegative
computed tax saving in every month of the horizon (as holds whenever the
amortization keeps interest and principal nonnegative), evaluating with
taxOn = false yields an npvBuy less than or equal to the npvBuy with
taxOn = true and all other inputs identical. -/
theorem npv_buy_tax_monotone (p : Params) (hg rg : ℚ) (e : ℚ)
    (he : emiP p = some e) (hd : 0 < 1 + monthly_disc p)
    (hs : ∀ m, m < months p →
      0 ≤ tax_saving_monthly true (interestAt p e (m + 1)) (principalAt p e (m + 1))) :
    ∃ a ra b rb, compute_npv p hg rg false = some (a, ra) ∧
      compute_npv p hg rg true = some (b, rb) ∧ a ≤ b := by
  have hne : 1 + monthly_disc p ≠ 0 := ne_of_gt hd
  refine ⟨npvSumFrom (monthly_disc p) 0 (cf_buy p hg false e),
    npvSumFrom (monthly_disc p) 0 (cf_rent p rg),
    npvSumFrom (monthly_disc p) 0 (cf_buy p hg true e),
    npvSumFrom (monthly_disc p) 0 (cf_rent p rg),
    ?_, ?_, ?_⟩
  · unfold compute_npv
    rw [he, Option.some_bind, npv_eq_some _ hne, Option.some_bind, npv_eq_some _ hne]
    rfl
  · unfold compute_npv
    rw [he, Option.some_bind, npv_eq_some _ hne, Option.some_bind, npv_eq_some _ hne]
    rfl
  · exact npvSumFrom_le (monthly_disc p) hd 0 _ _ (cf_buy_forall2 p hg e hs)

/-- Witness for npv_buy_tax_monotone on a small fully amortizing loan. -/
theorem npv_buy_tax_monotone_witness :
    ∃ a ra b rb, compute_npv small_params 0 0 false = some (a, ra) ∧
      compute_npv small_params 0 0 true = some (b, rb) ∧ a ≤ b :=
  npv_buy_tax_monotone small_params 0 0 (81920 / 819)
    (by with_unfolding_all rfl)
    (by with_unfolding_all decide)
    (by with_unfolding_all decide)

/-- The buy-path NPV is monotone in the house-growth rate provided the
commission-adjusted price is nonnegative and the lower growth factor is
nonnegative. -/
theorem npv_buy_mono_hg (p : Params) (tax_on : Bool) (e : ℚ)
    (hd : 0 < 1 + monthly_disc p) (hg1 hg2 : ℚ) (h12 : hg1 ≤ hg2)
    (hb : 0 ≤ 1 + hg1 / 100)
    (hp : 0 ≤ p.price * (1 - p.sell_commission / 100)) (hy : 0 ≤ p.exit_year) :
    npvSumFrom (monthly_disc p) 0 (cf_buy p hg1 tax_on e) ≤
      npvSumFrom (monthly_disc p) 0 (cf_buy p hg2 tax_on e) := by
  have hsale : sale_net p hg1 e ≤ sale_net p hg2 e := by
    unfold sale_net sale_price
    have hYe : p.exit_year = ((p.exit_year.toNat : ℕ) : ℤ) :=
      (Int.toNat_of_nonneg hy).symm
    rw [hYe, zpow_natCast, zpow_natCast]
    have hq : (1 + hg1 / 100) ^ p.exit_year.toNat ≤ (1 + hg2 / 100) ^ p.exit_year.toNat :=
      pow_le_pow_left₀ hb (by linarith) _
    nlinarith
  unfold cf_buy
  cases hl : p.lifetime with
  | true => simp [hl]
  | false =>
      simp only [hl, if_false, Bool.false_eq_true]
      rw [npvSumFrom_addLast (monthly_disc p) 0 _ (sale_net p hg1 e) (by simp),
        npvSumFrom_addLast (monthly_disc p) 0 _ (sale_net p hg2 e) (by simp)]
      refine add_le_add (le_refl _) ?_
      exact (div_le_div_iff_of_pos_right (pow_pos hd _)).mpr hsale

set_option maxRecDepth 8000 in
/-- C7 counterexample: with a 200% sell commission (and a strictly positive
discount rate), raising house growth from the Base 0% to the Boom 1%
strictly lowers npvBuy, so the Boom >= Base >= Crash ordering fails. -/
theorem scenario_order_counterexample :
    ((compute_npv neg_sale_params (0 + 1) 0 false).getD (0, 0)).1 <
      ((compute_npv neg_sale_params 0 0 false).getD (0, 0)).1 := by
  with_unfolding_all decide

/-- C7 amended: for the Base/Boom/Crash scenario triple (house growth hg,
hg+1, hg-1, rent growth fixed), with a nonnegative discount rate, a
nonnegative commission-adjusted price, a nonnegative Crash growth factor and
a nonnegative holding horizon, the npvBuy values are ordered
Boom >= Base >= Crash. -/
theorem scenario_npv_buy_ordered (p : Params) (hg rg : ℚ) (tax_on : Bool) (e : ℚ)
    (he : emiP p = some e) (hd : 0 ≤ p.disc)
    (hp : 0 ≤ p.price * (1 - p.sell_commission / 100))
    (hb : 0 ≤ 1 + (hg - 1) / 100) (hy : 0 ≤ p.exit_year) :
    ∃ bBoom rBoom bBase rBase bCrash rCrash,
      compute_npv p (hg + 1) rg tax_on = some (bBoom, rBoom) ∧
      compute_npv p hg rg tax_on = some (bBase, rBase) ∧
      compute_npv p (hg - 1) rg tax_on = some (bCrash, rCrash) ∧
      bCrash ≤ bBase ∧ bBase ≤ bBoom := by
  have hd' : 0 < 1 + monthly_disc p := by
    unfold monthly_disc
    have : (0:ℚ) ≤ p.disc / 100 / 12 := by positivity
    linarith
  have hne : 1 + monthly_disc p ≠ 0 := ne_of_gt hd'
  refine ⟨npvSumFrom (monthly_disc p) 0 (cf_buy p (hg + 1) tax_on e),
    npvSumFrom (monthly_disc p) 0 (cf_rent p rg),
    npvSumFrom (monthly_disc p) 0 (cf_buy p hg tax_on e),
    npvSumFrom (monthly_disc p) 0 (cf_rent p rg),
    npvSumFrom (monthly_disc p) 0 (cf_buy p (hg - 1) tax_on e),
    npvSumFrom (monthly_disc p) 0 (cf_rent p rg),
    ?_, ?_, ?_, ?_, ?_⟩
  · unfold compute_npv
    rw [he, Option.some_bind, npv_eq_some _ hne, Option.some_bind, npv_eq_some _ hne]
    rfl
  · unfold compute_npv
    rw [he, Option.some_bind, npv_eq_some _ hne, Option.some_bind, npv_eq_some _ hne]
    rfl
  · unfold compute_npv
    rw [he, Option.some_bind, npv_eq_some _ hne, Option.some_bind, npv_eq_some _ hne]
    rfl
  · exact npv_buy_mono_hg p tax_on e hd' (hg - 1) hg (by linarith) hb hp hy
  · exact npv_buy_mono_hg p tax_on e hd' hg (hg + 1) (by linarith) (by linarith) hp hy

/-- Witness for scenario_npv_buy_ordered on the small parameter set. -/
theorem scenario_npv_buy_ordered_witness :
    ∃ bBoom rBoom bBase rBase bCrash rCrash,
      compute_npv small_params (0 + 1) 0 false = some (bBoom, rBoom) ∧
      compute_npv small_params 0 0 false = some (bBase, rBase) ∧
      compute_npv small_params (0 - 1) 0 false = some (bCrash, rCrash) ∧
      bCrash ≤ bBase ∧ bBase ≤ bBoom :=
  scenario_npv_buy_ordered small_params 0 0 false (81920 / 819)
    (by with_unfolding_all rfl)
    (by with_unfolding_all decide)
    (by with_unfolding_all decide)
    (by with_unfolding_all decide)
    (by with_unfolding_all decide)

/-- C8: for a holding horizon of at least one month, both cash-flow series
have length exactly months + 1, and their index-0 entry is the negated
initial outlay (indices 1..months being the recurring flows, the last entry
carrying the terminal adjustment by construction). -/
theorem cash_flow_series_shape (p : Params) (hg rg : ℚ) (tax_on : Bool) (e : ℚ)
    (hm : 1 ≤ months p) :
    (cf_buy p hg tax_on e).length = months p + 1 ∧
    (cf_rent p rg).length = months p + 1 ∧
    (cf_buy p hg tax_on e).head? = some (-(initial p)) ∧
    (cf_rent p rg).head? = some (-(invest0 p)) := by
  have hbuy_len : (cf_buy p hg tax_on e).length = months p + 1 := by
    unfold cf_buy
    cases hl : p.lifetime with
    | true => simp [hl]
    | false =>
        simp only [hl, if_false, Bool.false_eq_true]
        rw [addLast_length]
        simp
  have hrent_len : (cf_rent p rg).length = months p + 1 := by
    unfold cf_rent
    rw [addLast_length]
    simp
  refine ⟨hbuy_len, hrent_len, ?_, ?_⟩
  · unfold cf_buy
    cases hl : p.lifetime with
    | true => simp [hl]
    | false =>
        simp only [hl, if_false, Bool.false_eq_true]
        rw [addLast_head _ _ (by simp; omega)]
        rfl
  · unfold cf_rent
    rw [addLast_head _ _ (by simp; omega)]
    rfl

/-- Witness for cash_flow_series_shape on the small parameter set. -/
theorem cash_flow_series_shape_witness :
    (cf_buy small_params 0 true 2).length = months small_params + 1 ∧
    (cf_rent small_params 0).length = months small_params + 1 ∧
    (cf_buy small_params 0 true 2).head? = some (-(initial small_params)) ∧
    (cf_rent small_params 0).head? = some (-(invest0 small_params)) :=
  cash_flow_series_shape small_params 0 0 true 2 (by with_unfolding_all decide)

/-! Error propagation (C2). -/

theorem bes_none_of_nonneg (xs ds : List ℚ)
    (h : ∀ i (hi : i + 1 < ds.length),
      0 ≤ ds.get ⟨i, Nat.lt_of_succ_lt hi⟩ * ds.get ⟨i + 1, hi⟩) :
    break_even_search xs ds = none := by
  induction ds generalizing xs with
  | nil => cases xs <;> rfl
  | cons d1 ds' ih =>
      cases ds' with
      | nil => cases xs <;> rfl
      | cons d2 ds'' =>
          cases xs with
          | nil => rfl
          | cons x xs' =>
              have h0 : 0 ≤ d1 * d2 := h 0 (by simp)
              show (if d1 * d2 < 0 then some x else break_even_search xs' (d2 :: ds'')) = none
              rw [if_neg (not_lt.mpr h0)]
              exact ih xs' (fun i hi =>
                h (i + 1) (by simp only [List.length_cons] at hi ⊢; omega))

theorem bes_nonneg_of_none (xs ds : List ℚ) (hlen : xs.length = ds.length)
    (h : break_even_search xs ds = none) :
    ∀ i (hi : i + 1 < ds.length),
      0 ≤ ds.get ⟨i, Nat.lt_of_succ_lt hi⟩ * ds.get ⟨i + 1, hi⟩ := by
  induction ds generalizing xs with
  | nil =>
      intro i hi
      simp at hi
  | cons d1 ds' ih =>
      cases ds' with
      | nil =>
          intro i hi
          simp only [List.length_cons, List.length_nil] at hi
          omega
      | cons d2 ds'' =>
          cases xs with
          | nil => simp at hlen
          | cons x xs' =>
              intro i hi
              have hcomp : break_even_search (x :: xs') (d1 :: d2 :: ds'') =
                  if d1 * d2 < 0 then some x else break_even_search xs' (d2 :: ds'') := rfl
              rw [hcomp] at h
              by_cases hneg : d1 * d2 < 0
              · rw [if_pos hneg] at h
                exact absurd h (by simp)
              · rw [if_neg hneg] at h
                cases i with
                | zero => exact not_lt.mp hneg
                | succ j =>
                    exact ih xs' (by simp only [List.length_cons] at hlen ⊢; omega) h j
                      (by simp only [List.length_cons] at hi ⊢; omega)

theorem bes_first_hit (xs ds : List ℚ) (hlen : xs.length = ds.length) :
    ∀ i (hi : i + 1 < ds.length),
      ds.get ⟨i, Nat.lt_of_succ_lt hi⟩ * ds.get ⟨i + 1, hi⟩ < 0 →
      (∀ j (hj : j + 1 < ds.length), j < i →
        0 ≤ ds.get ⟨j, Nat.lt_of_succ_lt hj⟩ * ds.get ⟨j + 1, hj⟩) →
      break_even_search xs ds = some (xs.get ⟨i, by omega⟩) := by
  induction ds generalizing xs with
  | nil =>
      intro i hi
      simp at hi
  | cons d1 ds' ih =>
      cases ds' with
      | nil =>
          intro i hi
          simp only [List.length_cons, List.length_nil] at hi
          omega
      | cons d2 ds'' =>
          cases xs with
          | nil => simp at hlen
          | cons x xs' =>
              intro i hi hprod hmin
              show (if d1 * d2 < 0 then some x else break_even_search xs' (d2 :: ds'')) = _
              cases i with
              | zero =>
                  rw [if_pos (show d1 * d2 < 0 from hprod)]
                  rfl
              | succ j =>
                  have h0 : 0 ≤ d1 * d2 := hmin 0 (by simp) (by omega)
                  rw [if_neg (not_lt.mpr h0)]
                  exact ih xs' (by simp only [List.length_cons] at hlen ⊢; omega) j
                    (by simp only [List.length_cons] at hi ⊢; omega) hprod
                    (fun k hk hkj =>
                      hmin (k + 1) (by simp only [List.length_cons] at hk ⊢; omega) (by omega))

/-- C3: the break-even scan of lines 206-210 / 259-263, over any grid and
delta list of equal length, returns none exactly when no adjacent delta pair
has a strictly negative product, and at the first adjacent sign-change pair
(scanning in ascending list order) it returns the grid value at the left
endpoint of that pair; with no sign change the break-even is absent, never
extrapolated. -/
theorem break_even_left_endpoint (xs ds : List ℚ) (hlen : xs.length = ds.length) :
    (break_even_search xs ds = none ↔
      ∀ i (hi : i + 1 < ds.length),
        0 ≤ ds.get ⟨i, Nat.lt_of_succ_lt hi⟩ * ds.get ⟨i + 1, hi⟩) ∧
    (∀ i (hi : i + 1 < ds.length),
      ds.get ⟨i, Nat.lt_of_succ_lt hi⟩ * ds.get ⟨i + 1, hi⟩ < 0 →
      (∀ j (hj : j + 1 < ds.length), j < i →
        0 ≤ ds.get ⟨j, Nat.lt_of_succ_lt hj⟩ * ds.get ⟨j + 1, hj⟩) →
      break_even_search xs ds = some (xs.get ⟨i, by omega⟩)) :=
  ⟨⟨bes_nonneg_of_none xs ds hlen, bes_none_of_nonneg xs ds⟩, bes_first_hit xs ds hlen⟩

/-- Witness for break_even_left_endpoint: deltas 1, -1, 1 change sign at the
first adjacent pair, so the left endpoint 1 of the grid is returned. -/
theorem break_even_left_endpoint_witness :
    break_even_search [(1 : ℚ), 2, 3] [(1 : ℚ), -1, 1] = some 1 :=
  (break_even_left_endpoint [1, 2, 3] [1, -1, 1] rfl).2 0 (by norm_num)
    (by show (1 : ℚ) * -1 < 0; norm_num)
    (fun j hj hji => absurd hji (Nat.not_lt_zero j))

/-! Tax model (C5). -/

/-- C5: the monthly tax saving equals
(min(12*interest, 200000) + min(12*principal, 150000)) * 0.30 / 12 when tax
is enabled and 0 when disabled, annualizing the single month's snapshot
(interest*12, principal*12) rather than tracking a rolling annual sum. -/
theorem tax_saving_formula (interest principal : ℚ) :
    tax_saving_monthly true interest principal =
      (min (12 * interest) 200000 + min (12 * principal) 150000) * (30 / 100) / 12 ∧
    tax_saving_monthly false interest principal = 0 := by
  constructor
  · show (min (interest * 12) interest_cap + min (principal * 12) principal_cap) *
        tax_rate / 12 = _
    rw [mul_comm interest 12, mul_comm principal 12]
    rfl
  · rfl

/-! Determinism (C9). -/

/-- C9: at the spec's concrete scenario (the sidebar defaults with holdingYears 10,
houseGrowth 3, rentGrowth 2, discount 5, tax on) the evaluation produces
exactly one defined (npvBuy, npvRent) pair: compute_npv is a pure function
of its arguments, consumes no randomness, and its output at this input is
unique. -/
theorem compute_npv_deterministic :
    ∃! v : ℚ × ℚ, compute_npv default_params 3 2 true = some v := by
  have hr : r default_params = 1 / 400 := by norm_num [r, default_params]
  have hn : n default_params = 360 := by norm_num [n, default_params]
  have hq : (1 : ℚ) < (1 + r default_params) ^ (n default_params) := by
    rw [hr, hn]
    exact one_lt_growth_zpow (1 / 400) 360 (by norm_num) (by norm_num)
  have hsome : emiP default_params =
      some (loan_amt default_params * r default_params *
        (1 + r default_params) ^ (n default_params) /
        ((1 + r default_params) ^ (n default_params) - 1)) :=
    emi_formula _ _ _ hq
  have hne : 1 + monthly_disc default_params ≠ 0 := by
    norm_num [monthly_disc, default_params]
  have hval : compute_npv default_params 3 2 true =
      some (npvSumFrom (monthly_disc default_params) 0
          (cf_buy default_params 3 true
            (loan_amt default_params * r default_params *
              (1 + r default_params) ^ (n default_params) /
              ((1 + r default_params) ^ (n default_params) - 1))),
        npvSumFrom (monthly_disc default_params) 0 (cf_rent default_params 2)) := by
    unfold compute_npv
    rw [hsome, Option.some_bind, npv_eq_some _ hne, Option.some_bind, npv_eq_some _ hne]
    rfl
  refine ⟨_, hval, fun y hy => ?_⟩
  rw [hval] at hy
  exact (Option.some.inj hy).symm

end App
